import Mathlib

/-!
Shallow embedding of `src/data_fetcher.rs` (okex_historical_pull_data).

Modelling conventions:
* `NaiveDate` is modelled as `Nat`; the date renderings (`%Y%m%d` for partition
  keys, `%Y-%m-%d` for the watermark) are both modelled by the decimal rendering
  `formatDate`, with `parseDate` as the model of `NaiveDate::parse_from_str`.
* `HashMap<String, _>` is modelled as an association list with insert-replace
  semantics (`upsert`); map equality statements are made via `List.lookup`.
* Network and filesystem effects are modelled by explicit oracles:
  a page list for the paginated listings, an `ex : String → Bool` oracle for
  `Path::exists`, and a `fetchOk : DlTask → Bool` oracle for the outcome of
  `download_and_save_file`.
* `serde_json::Value` is modelled by the inductive `Json`; a `None` result of a
  load models a Rust `unwrap()` panic, while `some (.error _)` models an `Err`
  return.
-/

namespace OkexPull

/-- Model of the `DataType` enum. -/
inductive DataType where
  | SwapRate
  | AggTrades
  | Trades
  deriving DecidableEq

/-- Model of `DataType::as_str`. -/
def DataType.as_str : DataType → String
  | .SwapRate => "swaprate"
  | .AggTrades => "aggtrades"
  | .Trades => "trades"

/-- Model of the `FileRecord` struct. -/
structure FileRecord where
  file_name : String
  deriving DecidableEq

/-- Model of the `DateRecord` struct. -/
structure DateRecord where
  downloaded : Bool
  files : List FileRecord
  deriving DecidableEq

/-- Dates (`chrono::NaiveDate`) are modelled as natural numbers. -/
abbrev Date := Nat

/-- The persisted catalog state of the fetcher: the `records` hash map
(keyed by partition-key strings) together with the `last_update` watermark. -/
structure Catalog where
  records : List (String × DateRecord)
  last_update : Option Date
  deriving DecidableEq

/-! ### Decimal rendering of dates -/

/-- The character for a decimal digit. -/
def digitChar (d : Nat) : Char := Char.ofNat (48 + d)

/-- The numeric value of a decimal digit character. -/
def charVal (c : Char) : Nat := c.toNat - 48

/-- Whether a character is a decimal digit. -/
def isDigitCh (c : Char) : Bool := decide (48 ≤ c.toNat) && decide (c.toNat ≤ 57)

/-- Model of formatting a date (decimal rendering of the `Nat` model). -/
def formatDate (n : Nat) : String :=
  if n = 0 then "0" else ⟨((Nat.digits 10 n).map digitChar).reverse⟩

/-- Model of `NaiveDate::parse_from_str`: succeeds exactly on nonempty digit
strings, returning the denoted number. -/
def parseDate (s : String) : Option Nat :=
  if !s.data.isEmpty && s.data.all isDigitCh then
    some (Nat.ofDigits 10 ((s.data.map charVal).reverse))
  else none

theorem charVal_digitChar {d : Nat} (h : d < 10) : charVal (digitChar d) = d := by
  interval_cases d <;> decide

theorem isDigitCh_digitChar {d : Nat} (h : d < 10) : isDigitCh (digitChar d) = true := by
  interval_cases d <;> decide

theorem parseDate_formatDate (n : Nat) : parseDate (formatDate n) = some n := by
  rcases Nat.eq_zero_or_pos n with h0 | hpos
  · subst h0; decide
  · have hn0 : n ≠ 0 := Nat.pos_iff_ne_zero.mp hpos
    have hne : Nat.digits 10 n ≠ [] := Nat.digits_ne_nil_iff_ne_zero.mpr hn0
    have hlt : ∀ d ∈ Nat.digits 10 n, d < 10 := fun d hd =>
      Nat.digits_lt_base (by norm_num) hd
    have hdata : (formatDate n).data = ((Nat.digits 10 n).map digitChar).reverse := by
      simp [formatDate, hn0]
    have hempty : (formatDate n).data.isEmpty = false := by
      rw [hdata]
      simp only [List.isEmpty_eq_false_iff_exists_mem]
      obtain ⟨d, hd⟩ := List.exists_mem_of_ne_nil _ hne
      exact ⟨digitChar d, by simp [List.mem_reverse]; exact ⟨d, hd, rfl⟩⟩
    have hall : (formatDate n).data.all isDigitCh = true := by
      rw [hdata]
      simp only [List.all_eq_true, List.mem_reverse, List.mem_map]
      rintro c ⟨d, hd, rfl⟩
      exact isDigitCh_digitChar (hlt d hd)
    have hmap : ((formatDate n).data.map charVal).reverse = Nat.digits 10 n := by
      rw [hdata, List.map_reverse, List.reverse_reverse, List.map_map]
      calc (Nat.digits 10 n).map (charVal ∘ digitChar)
          = (Nat.digits 10 n).map id := by
            apply List.map_congr_left
            intro d hd
            exact charVal_digitChar (hlt d hd)
        _ = Nat.digits 10 n := List.map_id _
    unfold parseDate
    rw [hempty, hall]
    simp only [Bool.not_false, Bool.true_and, if_pos]
    rw [hmap, Nat.ofDigits_digits]

/-! ### Hash-map model: association lists with insert-replace -/

/-- Model of `HashMap::insert`: replace the binding if the key is present,
otherwise append it. -/
def upsert {β : Type} (k : String) (v : β) : List (String × β) → List (String × β)
  | [] => [(k, v)]
  | p :: rest => if p.1 = k then (k, v) :: rest else p :: upsert k v rest

theorem mem_upsert {β : Type} {k : String} {v : β} {l : List (String × β)}
    {x : String × β} (hx : x ∈ upsert k v l) : x = (k, v) ∨ x ∈ l := by
  induction l with
  | nil => simp [upsert] at hx; simp [hx]
  | cons p rest ih =>
    by_cases hp : p.1 = k
    · simp [upsert, hp] at hx
      rcases hx with h | h
      · exact Or.inl h
      · exact Or.inr (List.mem_cons_of_mem _ h)
    · simp [upsert, hp] at hx
      rcases hx with h | h
      · exact Or.inr (by simp [h])
      · rcases ih h with h' | h'
        · exact Or.inl h'
        · exact Or.inr (List.mem_cons_of_mem _ h')

theorem lookup_upsert_self {β : Type} (k : String) (v : β) (l : List (String × β)) :
    (upsert k v l).lookup k = some v := by
  induction l with
  | nil => simp [upsert, List.lookup_cons]
  | cons p rest ih =>
    obtain ⟨p1, p2⟩ := p
    by_cases hp : p1 = k
    · simp [upsert, hp, List.lookup_cons]
    · have hk : (k == p1) = false := beq_eq_false_iff_ne.mpr (Ne.symm hp)
      simp [upsert, hp, List.lookup_cons, hk, ih]

theorem lookup_upsert_ne {β : Type} {k k' : String} (h : k' ≠ k) (v : β)
    (l : List (String × β)) : (upsert k v l).lookup k' = l.lookup k' := by
  induction l with
  | nil =>
    have hk : (k' == k) = false := beq_eq_false_iff_ne.mpr h
    simp [upsert, List.lookup_cons, hk]
  | cons p rest ih =>
    obtain ⟨p1, p2⟩ := p
    by_cases hp : p1 = k
    · subst hp
      have hk : (k' == p1) = false := beq_eq_false_iff_ne.mpr h
      simp [upsert, List.lookup_cons, hk]
    · by_cases hq : p1 = k'
      · subst hq
        simp [upsert, hp, List.lookup_cons]
      · have hk : (k' == p1) = false := beq_eq_false_iff_ne.mpr (Ne.symm hq)
        simp [upsert, hp, List.lookup_cons, hk, ih]

/-- First components of an association list. -/
def keysOf {β : Type} (l : List (String × β)) : List String := l.map Prod.fst

theorem lookup_eq_none_of_not_mem_keys {β : Type} {k : String} {l : List (String × β)}
    (h : k ∉ keysOf l) : l.lookup k = none := by
  induction l with
  | nil => simp
  | cons p rest ih =>
    obtain ⟨p1, p2⟩ := p
    simp [keysOf] at h
    have hk : (k == p1) = false := beq_eq_false_iff_ne.mpr h.1
    have hrest : k ∉ keysOf rest := by
      simp [keysOf]
      intro b hb
      exact absurd (List.mem_map_of_mem Prod.fst hb) (by simpa [keysOf] using h.2 b hb)
    simp [List.lookup_cons, hk, ih hrest]

theorem lookup_map_keydep {β γ : Type} (g : String → β → γ) (l : List (String × β))
    (k : String) :
    (l.map (fun p => (p.1, g p.1 p.2))).lookup k = (l.lookup k).map (g k) := by
  induction l with
  | nil => simp
  | cons p rest ih =>
    obtain ⟨p1, p2⟩ := p
    by_cases hp : k = p1
    · subst hp
      simp [List.lookup_cons, ih]
    · have hk : (k == p1) = false := beq_eq_false_iff_ne.mpr hp
      simp [List.lookup_cons, hk, ih]

/-! ### JSON model and the catalog store (`save_to_file` / `load_from_file`) -/

/-- Model of `serde_json::Value`, restricted to the shapes the state file uses. -/
inductive Json where
  | null
  | bool (b : Bool)
  | str (s : String)
  | num (n : Int)
  | arr (xs : List Json)
  | obj (kvs : List (String × Json))

/-- Model of serde's `value[key]` indexing: `Null` on non-objects and
missing keys. -/
def Json.get (j : Json) (k : String) : Json :=
  match j with
  | .obj kvs => (kvs.lookup k).getD .null
  | _ => .null

/-- Model of `Value::as_str`. -/
def Json.as_str : Json → Option String
  | .str s => some s
  | _ => none

/-- Model of `Value::as_bool`. -/
def Json.as_bool : Json → Option Bool
  | .bool b => some b
  | _ => none

/-- Model of `Value::as_array`. -/
def Json.as_array : Json → Option (List Json)
  | .arr xs => some xs
  | _ => none

/-- Model of `Value::as_object`. -/
def Json.as_object : Json → Option (List (String × Json))
  | .obj kvs => some kvs
  | _ => none

/-- An iterator `map` whose body may `unwrap()`: `none` models a panic of the
whole traversal. -/
def mapOrPanic {α β : Type} (f : α → Option β) : List α → Option (List β)
  | [] => some []
  | a :: as =>
    match f a, mapOrPanic f as with
    | some b, some bs => some (b :: bs)
    | _, _ => none

/-- Errors `load_from_file` can return (`?`-propagated). -/
inductive LoadError where
  | badDate
  deriving DecidableEq

/-- Model of the per-date record parsing inside `load_from_file`:
`downloaded` falls back to `false`, a non-array `files` falls back to `[]`,
but a non-string entry inside `files` hits `unwrap()` (panic, modelled `none`). -/
def parseDateRecordJson (j : Json) : Option DateRecord :=
  match mapOrPanic Json.as_str ((j.get "files").as_array.getD []) with
  | none => none
  | some names => some ⟨(j.get "downloaded").as_bool.getD false, names.map FileRecord.mk⟩

/-- Model of the `dates` part of `load_from_file`; starting from the fetcher's
initial empty `records`, which stay empty when `dates` is absent. -/
def loadDates (j : Json) (lu : Option Date) : Option (Except LoadError Catalog) :=
  match (j.get "dates").as_object with
  | none => some (.ok ⟨[], lu⟩)
  | some kvs =>
    match mapOrPanic (fun kv => (parseDateRecordJson kv.2).map (fun r => (kv.1, r))) kvs with
    | none => none
    | some recs => some (.ok ⟨recs, lu⟩)

/-- Model of `load_from_file` on already-JSON-parsed content.
`some (.error e)` is a graceful `Err` return (the engine re-fetches);
`none` is a panic. -/
def loadFromFile (j : Json) : Option (Except LoadError Catalog) :=
  match (j.get "last_update").as_str with
  | some s =>
    match parseDate s with
    | none => some (.error .badDate)
    | some d => loadDates j (some d)
  | none => loadDates j none

/-- Model of the JSON written for one `DateRecord` by `save_to_file`. -/
def saveRecord (r : DateRecord) : Json :=
  .obj [("downloaded", .bool r.downloaded),
        ("files", .arr (r.files.map (fun f => .str f.file_name)))]

/-- Model of `save_to_file`: the document written over the old state file
(full overwrite). -/
def saveToFile (c : Catalog) : Json :=
  .obj ((match c.last_update with
         | some d => [("last_update", Json.str (formatDate d))]
         | none => []) ++
        [("dates", Json.obj (c.records.map (fun p => (p.1, saveRecord p.2))))])

theorem mapOrPanic_str (l : List FileRecord) :
    mapOrPanic Json.as_str (l.map (fun f => Json.str f.file_name))
      = some (l.map FileRecord.file_name) := by
  induction l with
  | nil => rfl
  | cons f fs ih => simp [mapOrPanic, Json.as_str, ih]

theorem parse_save_record (r : DateRecord) :
    parseDateRecordJson (saveRecord r) = some r := by
  have h1 : ("files" == "downloaded") = false := by decide
  simp [parseDateRecordJson, saveRecord, Json.get, List.lookup_cons, h1,
    Json.as_array, Json.as_bool, mapOrPanic_str, List.map_map]
  have hid : (FileRecord.mk ∘ FileRecord.file_name) = id := by
    funext f; cases f; rfl
  cases r with
  | mk dl fs => simp [hid]

theorem mapOrPanic_save (l : List (String × DateRecord)) :
    mapOrPanic (fun kv => (parseDateRecordJson kv.2).map (fun r => (kv.1, r)))
      (l.map (fun p => (p.1, saveRecord p.2))) = some l := by
  induction l with
  | nil => rfl
  | cons p rest ih => simp [mapOrPanic, parse_save_record, ih]

/-- Claim C8: for every Catalog with non-empty records, `save_to_file` followed
by `load_from_file` yields a Catalog (watermark and records, including each
record's downloaded flag and files list) equal to the original. -/
theorem claim_C8 (c : Catalog) (h : c.records ≠ []) :
    loadFromFile (saveToFile c) = some (.ok c) := by
  obtain ⟨records, lu⟩ := c
  have hd : ("dates" == "last_update") = false := by decide
  cases lu with
  | none =>
    simp [saveToFile, loadFromFile, Json.get, List.lookup_cons, Json.as_str,
      loadDates, Json.as_object, mapOrPanic_save]
  | some d =>
    simp [saveToFile, loadFromFile, Json.get, List.lookup_cons, Json.as_str,
      parseDate_formatDate, loadDates, hd, Json.as_object, mapOrPanic_save]

/-- Witness for C8 at a concrete catalog. -/
theorem claim_C8_witness :
    (Catalog.mk [("20240101", ⟨true, [⟨"a.zip"⟩]⟩)] (some 20240104)).records ≠ [] ∧
    loadFromFile (saveToFile (Catalog.mk [("20240101", ⟨true, [⟨"a.zip"⟩]⟩)]
      (some 20240104)))
      = some (.ok (Catalog.mk [("20240101", ⟨true, [⟨"a.zip"⟩]⟩)] (some 20240104))) :=
  ⟨by decide, claim_C8 _ (by decide)⟩

/-- Claim C6 (code bug): the claim says every malformed state file is rejected
with an error so the engine re-discovers, never fatally. The code instead
panics (`unwrap()` on a `files` entry that is not a string): on such content
the model load is `none` (panic), not a graceful `some (.error _)`. A merely
unparsable `last_update`, by contrast, is returned as a graceful error. -/
theorem claim_C6 :
    loadFromFile (Json.obj [("dates", Json.obj [("20240101",
        Json.obj [("downloaded", Json.bool false), ("files", Json.arr [Json.num 42])])])])
      = none ∧
    loadFromFile (Json.obj [("last_update", Json.str "not-a-date")])
      = some (.error .badDate) :=
  ⟨rfl, rfl⟩

/-! ### Partition discovery (`fetch_dates`) -/

/-- One page of the paginated remote listing, already JSON-parsed: the
`recordFileList` entry names and the `isTruncate` flag. -/
structure Page where
  entries : List String
  isTruncate : Bool
  deriving DecidableEq

/-- The stop test of the entry loop: is this entry at or before the watermark? -/
def atBoundary (last : Option Date) (d : Date) : Bool :=
  match last with
  | some w => decide (d ≤ w)
  | none => false

/-- The entry loop of `fetch_dates` over one page: the first entry at or
before the watermark stops fetching; today's entry is skipped; the others are
inserted with `downloaded = false` and empty `files`. Returns the updated
records and the `continue_fetching` flag; an entry that fails to parse aborts
the whole call. -/
def fetchDatesEntries (today : Date) (last : Option Date) :
    List String → List (String × DateRecord) →
    Except Unit (List (String × DateRecord) × Bool)
  | [], recs => .ok (recs, true)
  | s :: rest, recs =>
    match parseDate s with
    | none => .error ()
    | some d =>
      if atBoundary last d then .ok (recs, false)
      else if d = today then fetchDatesEntries today last rest recs
      else fetchDatesEntries today last rest (upsert s ⟨false, []⟩ recs)

/-- The page loop of `fetch_dates`: keep requesting pages while the entry loop
wants to continue and the page reports `isTruncate`. -/
def fetchDatesPages (today : Date) (last : Option Date) :
    List Page → List (String × DateRecord) →
    Except Unit (List (String × DateRecord))
  | [], recs => .ok recs
  | p :: ps, recs =>
    match fetchDatesEntries today last p.entries recs with
    | .error e => .error e
    | .ok (recs', cont) =>
      if cont && p.isTruncate then fetchDatesPages today last ps recs' else .ok recs'

/-- Model of `fetch_dates`, starting from an empty map. -/
def fetchDates (today : Date) (last : Option Date) (pages : List Page) :
    Except Unit (List (String × DateRecord)) :=
  fetchDatesPages today last pages []

theorem atBoundary_false {last : Option Date} {d : Date}
    (h : atBoundary last d = false) : ∀ w, last = some w → w < d := by
  intro w hw
  subst hw
  have h' : ¬d ≤ w := by simpa [atBoundary] using h
  exact lt_of_not_le h'

theorem fetchDatesEntries_mem {today : Date} {last : Option Date}
    {es : List String} {recs0 recs1 : List (String × DateRecord)} {cont : Bool}
    (h : fetchDatesEntries today last es recs0 = .ok (recs1, cont))
    {x : String × DateRecord} (hx : x ∈ recs1) :
    x ∈ recs0 ∨
      ∃ d, parseDate x.1 = some d ∧ (∀ w, last = some w → w < d) ∧ d ≠ today := by
  induction es generalizing recs0 with
  | nil =>
    simp [fetchDatesEntries] at h
    exact Or.inl (h.1 ▸ hx)
  | cons s rest ih =>
    cases hparse : parseDate s with
    | none => simp [fetchDatesEntries, hparse] at h
    | some d =>
      by_cases hb : atBoundary last d = true
      · simp [fetchDatesEntries, hparse, hb] at h
        exact Or.inl (h.1 ▸ hx)
      · have hb' : atBoundary last d = false := by
          simpa using hb
        by_cases hd : d = today
        · subst hd
          simp [fetchDatesEntries, hparse, hb'] at h
          exact ih h
        · simp [fetchDatesEntries, hparse, hb', hd] at h
          rcases ih h with hup | hgood
          · rcases mem_upsert hup with hx' | hx'
            · subst hx'
              exact Or.inr ⟨d, hparse, atBoundary_false hb', hd⟩
            · exact Or.inl hx'
          · exact Or.inr hgood

theorem fetchDatesPages_mem {today : Date} {last : Option Date}
    {ps : List Page} {recs0 recs1 : List (String × DateRecord)}
    (h : fetchDatesPages today last ps recs0 = .ok recs1)
    {x : String × DateRecord} (hx : x ∈ recs1) :
    x ∈ recs0 ∨
      ∃ d, parseDate x.1 = some d ∧ (∀ w, last = some w → w < d) ∧ d ≠ today := by
  induction ps generalizing recs0 with
  | nil =>
    simp [fetchDatesPages] at h
    exact Or.inl (h ▸ hx)
  | cons p ps ih =>
    cases hE : fetchDatesEntries today last p.entries recs0 with
    | error e => simp [fetchDatesPages, hE] at h
    | ok rc =>
      obtain ⟨recs', cont⟩ := rc
      by_cases hc : (cont && p.isTruncate) = true
      · simp [fetchDatesPages, hE, hc] at h
        rcases ih h with h' | h'
        · exact fetchDatesEntries_mem hE h'
        · exact Or.inr h'
      · have hc' : (cont && p.isTruncate) = false := by simpa using hc
        simp [fetchDatesPages, hE, hc'] at h
        exact fetchDatesEntries_mem hE (h ▸ hx)

/-- Claim C5: for every watermark and every sequence of listing pages, the map
returned by `fetch_dates` contains no key whose date is at or before the
watermark, and does not contain today's partition key. -/
theorem claim_C5 (today : Date) (last : Option Date) (pages : List Page)
    (recs : List (String × DateRecord)) (s : String) (r : DateRecord)
    (hok : fetchDates today last pages = .ok recs) (hmem : (s, r) ∈ recs) :
    ∃ d, parseDate s = some d ∧ (∀ w, last = some w → w < d) ∧ d ≠ today ∧
      s ≠ formatDate today := by
  rcases fetchDatesPages_mem hok hmem with h | ⟨d, hp, hw, hd⟩
  · simp at h
  · refine ⟨d, hp, hw, hd, ?_⟩
    intro hs
    rw [hs, parseDate_formatDate] at hp
    exact hd (Option.some.inj hp).symm

/-- Witness for C5: a concrete run with watermark `20240102` and today
`20240105`. -/
theorem claim_C5_witness :
    (fetchDates 20240105 (some 20240102) [⟨["20240104", "20240103"], false⟩]
      = .ok [("20240104", ⟨false, []⟩), ("20240103", ⟨false, []⟩)]) ∧
    (∃ d, parseDate "20240104" = some d ∧
      (∀ w, (some 20240102 : Option Date) = some w → w < d) ∧ d ≠ 20240105 ∧
      "20240104" ≠ formatDate 20240105) :=
  ⟨rfl, claim_C5 20240105 (some 20240102) [⟨["20240104", "20240103"], false⟩]
    [("20240104", ⟨false, []⟩), ("20240103", ⟨false, []⟩)] "20240104" ⟨false, []⟩
    rfl (by decide)⟩

/-! ### Bootstrap (`fetch_and_save` and `DateFilesFetcher::new`) -/

/-- Model of `fetch_and_save`: the records map is REPLACED by the freshly
discovered map (`self.records = self.fetch_dates(..)`), and the watermark is
set to today. -/
def fetchAndSave (today : Date) (pages : List Page) (c : Catalog) :
    Except Unit Catalog :=
  match fetchDates today c.last_update pages with
  | .error e => .error e
  | .ok recs => .ok ⟨recs, some today⟩

/-- Model of the loaded-state branch of `DateFilesFetcher::new`: with a stale
watermark (`last_update ≠ today`), `fetch_and_save` runs; otherwise the loaded
catalog is kept. -/
def bootstrapLoaded (today : Date) (pages : List Page) (c : Catalog) :
    Except Unit Catalog :=
  if c.last_update = some today then .ok c else fetchAndSave today pages c

/-- Claim C3 (code bug): on a stale-watermark bootstrap the code does not merge
the newly discovered partitions into the existing records — it replaces the
whole map, so a record present before discovery (here `"20240101"`, already
downloaded) is gone afterwards, contradicting the claim that such records are
unchanged. -/
theorem claim_C3 :
    bootstrapLoaded 20240105 [⟨["20240104"], false⟩]
        ⟨[("20240101", ⟨true, [⟨"BTC-trades.zip"⟩]⟩)], some 20240103⟩
      = .ok ⟨[("20240104", ⟨false, []⟩)], some 20240105⟩ ∧
    List.lookup "20240101" [("20240104", (⟨false, []⟩ : DateRecord))] = none :=
  ⟨rfl, rfl⟩

/-! ### URLs and paths -/

/-- Model of `build_file_download_url` (uses the configured data type). -/
def buildFileDownloadUrl (dt : DataType) (date : String) (file_name : String) :
    String :=
  "https://static.okx.com/cdn/okex/traderecords/" ++ dt.as_str ++ "/daily"
    ++ "/" ++ date ++ "/" ++ file_name

/-- The `path` query parameter sent by `fetch_dates` (uses the configured
data type). -/
def fetchDatesPath (dt : DataType) : String :=
  "cdn/okex/traderecords/" ++ dt.as_str ++ "/daily"

/-- The `path` query parameter sent by `fetch_files_for_date` — the dataset
segment is the hard-coded literal `trades`, not `self.data_type.as_str()`. -/
def fetchFilesPath (dt : DataType) (date : String) : String :=
  match dt with
  | _ => "cdn/okex/traderecords/trades/daily/" ++ date

/-! ### The download pass (`download_unfetched_files`) -/

/-- The destination directory `./data/{dataset}/{date}` (line 319). -/
def destDir (dt : DataType) (date : String) : String :=
  "./data/" ++ dt.as_str ++ "/" ++ date

/-- The destination path of one file within its partition directory. -/
def destPath (dt : DataType) (date : String) (fname : String) : String :=
  destDir dt date ++ "/" ++ fname

/-- One queued download: `(file_url, save_path, date)` (line 327). -/
structure DlTask where
  url : String
  save_path : String
  date : String
  deriving DecidableEq

/-- The per-record inner loop (lines 322–330): one task per file that passes
the filter and is absent on disk; `all_exist` stays `true` iff no task was
queued. The record's `downloaded` flag is not consulted here. -/
def buildTasksForRecord (dt : DataType) (ex filt : String → Bool)
    (date : String) : List FileRecord → List DlTask × Bool
  | [] => ([], true)
  | f :: fs =>
    let rest := buildTasksForRecord dt ex filt date fs
    if filt f.file_name && !ex (destPath dt date f.file_name) then
      (⟨buildFileDownloadUrl dt date f.file_name,
        destPath dt date f.file_name, date⟩ :: rest.1, false)
    else rest

/-- The queued downloads of the whole pass, in records order (lines 318–332). -/
def buildDownloadsTasks (dt : DataType) (ex filt : String → Bool) :
    List (String × DateRecord) → List DlTask
  | [] => []
  | (date, r) :: rest =>
    (buildTasksForRecord dt ex filt date r.files).1
      ++ buildDownloadsTasks dt ex filt rest

/-- The `download_status` map seeded with each record's `all_exist`
(line 331). -/
def buildDownloadsStatus (dt : DataType) (ex filt : String → Bool) :
    List (String × DateRecord) → List (String × Bool) → List (String × Bool)
  | [], st => st
  | (date, r) :: rest, st =>
    buildDownloadsStatus dt ex filt rest
      (upsert date (buildTasksForRecord dt ex filt date r.files).2 st)

/-- The result-collection loop (lines 354–357): results are awaited in task
order; a successful task inserts `(date, true)` (tasks only ever report
success); the first failing task makes the whole function return its error
(`task.await??`), discarding everything after it. -/
def processTasks (fetchOk : DlTask → Bool) :
    List DlTask → List (String × Bool) → Except Unit (List (String × Bool))
  | [], st => .ok st
  | t :: ts, st =>
    if fetchOk t then processTasks fetchOk ts (upsert t.date true st)
    else .error ()

/-- Applying `download_status` back onto the records (lines 362–366). -/
def applyStatus (st : List (String × Bool))
    (recs : List (String × DateRecord)) : List (String × DateRecord) :=
  recs.map (fun p => (p.1,
    match st.lookup p.1 with
    | some b => (⟨b, p.2.files⟩ : DateRecord)
    | none => p.2))

/-- The download pass after the file-list refresh: build tasks and seed the
status map, collect the scheduler results, and on success write the statuses
back onto the records. -/
def downloadCore (dt : DataType) (ex filt : String → Bool)
    (fetchOk : DlTask → Bool) (recs : List (String × DateRecord)) :
    Except Unit (List (String × DateRecord)) :=
  match processTasks fetchOk (buildDownloadsTasks dt ex filt recs)
      (buildDownloadsStatus dt ex filt recs []) with
  | .error e => .error e
  | .ok st => .ok (applyStatus st recs)

/-- Model of `update_file_lists` (lines 270–302): refresh the files of every
record whose list is empty from the file lister, count the not-downloaded
records (all of them under the ignore flag), and persist. -/
def updateFileLists (lister : String → List FileRecord) (ignore : Bool)
    (recs : List (String × DateRecord)) : List (String × DateRecord) × Nat :=
  (recs.map (fun p => (p.1,
      if p.2.files.isEmpty then ⟨p.2.downloaded, lister p.1⟩ else p.2)),
   recs.countP (fun p => !p.2.downloaded || ignore))

/-- The observable outcome of `download_unfetched_files`: the final in-memory
records, the records snapshot that was persisted (by the `save_to_file` call
inside `update_file_lists` — the only save of the pass), and whether the call
returned `Ok`. -/
structure PassOutcome where
  final : List (String × DateRecord)
  persisted : List (String × DateRecord)
  ok : Bool
  deriving DecidableEq

/-- Model of `download_unfetched_files` (lines 305–370). -/
def downloadUnfetchedFiles (dt : DataType) (ex filt : String → Bool)
    (fetchOk : DlTask → Bool) (lister : String → List FileRecord)
    (ignore : Bool) (recs : List (String × DateRecord)) : PassOutcome :=
  match downloadCore dt ex filt fetchOk (updateFileLists lister ignore recs).1 with
  | .error _ => ⟨(updateFileLists lister ignore recs).1,
                 (updateFileLists lister ignore recs).1, false⟩
  | .ok recs2 => ⟨recs2, (updateFileLists lister ignore recs).1, true⟩

theorem btfr_mem_iff {dt : DataType} {ex filt : String → Bool} {date : String}
    {fs : List FileRecord} {t : DlTask} :
    t ∈ (buildTasksForRecord dt ex filt date fs).1 ↔
      ∃ f ∈ fs, (filt f.file_name && !ex (destPath dt date f.file_name)) = true ∧
        t = ⟨buildFileDownloadUrl dt date f.file_name,
             destPath dt date f.file_name, date⟩ := by
  induction fs with
  | nil => simp [buildTasksForRecord]
  | cons f fs ih =>
    by_cases hc : (filt f.file_name && !ex (destPath dt date f.file_name)) = true
    · have hc2 : filt f.file_name = true ∧ ex (destPath dt date f.file_name) = false := by
        simpa using hc
      simp [buildTasksForRecord, hc, hc2.1, hc2.2, ih]
    · have hc' : (filt f.file_name && !ex (destPath dt date f.file_name)) = false := by
        simpa using hc
      have hc2 : ¬(filt f.file_name = true ∧ ex (destPath dt date f.file_name) = false) := by
        intro hcc
        simp [hcc.1, hcc.2] at hc'
      simp [buildTasksForRecord, hc', hc2, ih]

theorem btfr_all_eq {dt : DataType} {ex filt : String → Bool} {date : String}
    {fs : List FileRecord} :
    (buildTasksForRecord dt ex filt date fs).2
      = fs.all (fun f => !(filt f.file_name && !ex (destPath dt date f.file_name))) := by
  induction fs with
  | nil => rfl
  | cons f fs ih =>
    by_cases hc : (filt f.file_name && !ex (destPath dt date f.file_name)) = true
    · simp only [buildTasksForRecord, hc, if_true, List.all_cons, Bool.not_true,
        Bool.false_and]
    · have hc' : (filt f.file_name && !ex (destPath dt date f.file_name)) = false := by
        simpa using hc
      simp only [buildTasksForRecord, hc', Bool.false_eq_true, if_false,
        List.all_cons, Bool.not_false, Bool.true_and, ih]

theorem btfr_nil_of {dt : DataType} {ex filt : String → Bool} {date : String}
    {fs : List FileRecord}
    (h : ∀ f ∈ fs, (filt f.file_name && !ex (destPath dt date f.file_name)) = false) :
    buildTasksForRecord dt ex filt date fs = ([], true) := by
  induction fs with
  | nil => rfl
  | cons f fs ih =>
    have hc := h f (List.mem_cons_self f fs)
    simp [buildTasksForRecord, hc]
    exact ih fun g hg => h g (List.mem_cons_of_mem f hg)

theorem bdt_mem_iff {dt : DataType} {ex filt : String → Bool}
    {recs : List (String × DateRecord)} {t : DlTask} :
    t ∈ buildDownloadsTasks dt ex filt recs ↔
      ∃ date r, (date, r) ∈ recs ∧
        ∃ f ∈ r.files,
          (filt f.file_name && !ex (destPath dt date f.file_name)) = true ∧
          t = ⟨buildFileDownloadUrl dt date f.file_name,
               destPath dt date f.file_name, date⟩ := by
  induction recs with
  | nil => simp [buildDownloadsTasks]
  | cons p rest ih =>
    obtain ⟨date0, r0⟩ := p
    simp only [buildDownloadsTasks, List.mem_append, ih, btfr_mem_iff,
      List.mem_cons, Prod.mk.injEq]
    constructor
    · rintro (⟨f, hf, hc, rfl⟩ | ⟨date, r, hrec, f, hf, hc, rfl⟩)
      · exact ⟨date0, r0, Or.inl ⟨rfl, rfl⟩, f, hf, hc, rfl⟩
      · exact ⟨date, r, Or.inr hrec, f, hf, hc, rfl⟩
    · rintro ⟨date, r, (⟨h1, h2⟩ | hrec), f, hf, hc, rfl⟩
      · subst h1
        subst h2
        exact Or.inl ⟨f, hf, hc, rfl⟩
      · exact Or.inr ⟨date, r, hrec, f, hf, hc, rfl⟩

theorem bdt_ex_false {dt : DataType} {ex filt : String → Bool}
    {recs : List (String × DateRecord)} {t : DlTask}
    (ht : t ∈ buildDownloadsTasks dt ex filt recs) : ex t.save_path = false := by
  rcases bdt_mem_iff.mp ht with ⟨date, r, _, f, _, hc, rfl⟩
  have := (Bool.and_eq_true _ _).mp hc
  simpa using this.2

theorem bds_preserve {dt : DataType} {ex filt : String → Bool}
    {recs : List (String × DateRecord)} {st : List (String × Bool)} {k : String}
    (h : k ∉ keysOf recs) :
    (buildDownloadsStatus dt ex filt recs st).lookup k = st.lookup k := by
  induction recs generalizing st with
  | nil => rfl
  | cons p rest ih =>
    obtain ⟨date0, r0⟩ := p
    have hk : k ≠ date0 := by
      intro hkd
      exact h (by simp [keysOf, hkd])
    have h2 : k ∉ keysOf rest := by
      intro hmem
      exact h (by simp [keysOf] at hmem ⊢; exact Or.inr hmem)
    rw [buildDownloadsStatus, ih h2, lookup_upsert_ne hk]

theorem lookup_of_mem_nodup {β : Type} {l : List (String × β)} {k : String} {v : β}
    (hnd : (keysOf l).Nodup) (h : (k, v) ∈ l) : l.lookup k = some v := by
  induction l with
  | nil => simp at h
  | cons p rest ih =>
    obtain ⟨p1, p2⟩ := p
    have hnd2 := List.nodup_cons.mp (show (p1 :: List.map Prod.fst rest).Nodup from hnd)
    rcases List.mem_cons.mp h with heq | hmem
    · have h1 : k = p1 := congrArg Prod.fst heq
      have h2 : v = p2 := congrArg Prod.snd heq
      subst h1; subst h2
      simp [List.lookup_cons]
    · have hk : k ≠ p1 := by
        intro hkp
        subst hkp
        exact hnd2.1 (List.mem_map_of_mem Prod.fst hmem)
      have hne : (k == p1) = false := beq_eq_false_iff_ne.mpr hk
      simp only [List.lookup_cons, hne]
      exact ih hnd2.2 hmem

theorem bds_lookup {dt : DataType} {ex filt : String → Bool}
    {recs : List (String × DateRecord)} {st : List (String × Bool)}
    {date : String} {r : DateRecord}
    (hnd : (keysOf recs).Nodup) (hmem : (date, r) ∈ recs) :
    (buildDownloadsStatus dt ex filt recs st).lookup date
      = some (buildTasksForRecord dt ex filt date r.files).2 := by
  induction recs generalizing st with
  | nil => simp at hmem
  | cons p rest ih =>
    obtain ⟨date0, r0⟩ := p
    have hnd2 := List.nodup_cons.mp (show (date0 :: List.map Prod.fst rest).Nodup from hnd)
    rcases List.mem_cons.mp hmem with heq | hmem'
    · have h1 : date = date0 := congrArg Prod.fst heq
      have h2 : r = r0 := congrArg Prod.snd heq
      subst h1; subst h2
      rw [buildDownloadsStatus, bds_preserve (show date ∉ keysOf rest from hnd2.1)]
      exact lookup_upsert_self _ _ _
    · rw [buildDownloadsStatus]
      exact ih hnd2.2 hmem'

theorem pt_mono {fetchOk : DlTask → Bool} {ts : List DlTask}
    {st st' : List (String × Bool)} {k : String}
    (h : processTasks fetchOk ts st = .ok st') (hk : st.lookup k = some true) :
    st'.lookup k = some true := by
  induction ts generalizing st with
  | nil =>
    simp [processTasks] at h
    exact h ▸ hk
  | cons t ts ih =>
    by_cases hf : fetchOk t = true
    · simp [processTasks, hf] at h
      refine ih h ?_
      by_cases hkt : k = t.date
      · subst hkt
        exact lookup_upsert_self _ _ _
      · rw [lookup_upsert_ne hkt]
        exact hk
    · simp [processTasks, hf] at h

theorem pt_task_true {fetchOk : DlTask → Bool} {ts : List DlTask}
    {st st' : List (String × Bool)} {t : DlTask}
    (h : processTasks fetchOk ts st = .ok st') (ht : t ∈ ts) :
    st'.lookup t.date = some true := by
  induction ts generalizing st with
  | nil => simp at ht
  | cons t0 ts ih =>
    by_cases hf : fetchOk t0 = true
    · simp [processTasks, hf] at h
      rcases List.mem_cons.mp ht with heq | hmem
      · subst heq
        exact pt_mono h (lookup_upsert_self _ _ _)
      · exact ih h hmem
    · simp [processTasks, hf] at h

theorem applyStatus_lookup (st : List (String × Bool))
    (recs : List (String × DateRecord)) (k : String) :
    (applyStatus st recs).lookup k = (recs.lookup k).map (fun r =>
      match st.lookup k with
      | some b => (⟨b, r.files⟩ : DateRecord)
      | none => r) := by
  have h := lookup_map_keydep
    (fun k r => match st.lookup k with
      | some b => (⟨b, r.files⟩ : DateRecord)
      | none => r) recs k
  simpa [applyStatus] using h

theorem updateFileLists_flags (lister : String → List FileRecord) (ignore : Bool)
    (recs : List (String × DateRecord)) (k : String) :
    (((updateFileLists lister ignore recs).1.lookup k).map DateRecord.downloaded)
      = ((recs.lookup k).map DateRecord.downloaded) := by
  have h := lookup_map_keydep
    (fun k r => if r.files.isEmpty then (⟨r.downloaded, lister k⟩ : DateRecord) else r)
    recs k
  have h2 : (updateFileLists lister ignore recs).1.lookup k
      = (recs.lookup k).map (fun r =>
          if r.files.isEmpty then (⟨r.downloaded, lister k⟩ : DateRecord) else r) := by
    simpa [updateFileLists] using h
  rw [h2]
  cases recs.lookup k with
  | none => rfl
  | some r =>
    simp only [Option.map_some']
    show some (if r.files.isEmpty then (⟨r.downloaded, lister k⟩ : DateRecord) else r).downloaded
        = some r.downloaded
    split <;> rfl

theorem downloadCore_ok_flag {dt : DataType} {ex filt : String → Bool}
    {fetchOk : DlTask → Bool} {recs recs' : List (String × DateRecord)}
    {date : String} {r : DateRecord}
    (hnd : (keysOf recs).Nodup) (hmem : (date, r) ∈ recs)
    (h : downloadCore dt ex filt fetchOk recs = .ok recs') :
    recs'.lookup date = some ⟨true, r.files⟩ := by
  unfold downloadCore at h
  cases hP : processTasks fetchOk (buildDownloadsTasks dt ex filt recs)
      (buildDownloadsStatus dt ex filt recs []) with
  | error e => rw [hP] at h; simp at h
  | ok st =>
    rw [hP] at h
    simp only [Except.ok.injEq] at h
    subst h
    have hst : st.lookup date = some true := by
      by_cases ha : (buildTasksForRecord dt ex filt date r.files).2 = true
      · exact pt_mono hP (by rw [bds_lookup hnd hmem, ha])
      · have ha' : (buildTasksForRecord dt ex filt date r.files).2 = false := by
          simpa using ha
        rw [btfr_all_eq] at ha'
        have hex : ∃ f ∈ r.files,
            (filt f.file_name && !ex (destPath dt date f.file_name)) = true := by
          by_contra hno
          push_neg at hno
          have : r.files.all
              (fun f => !(filt f.file_name && !ex (destPath dt date f.file_name))) = true := by
            rw [List.all_eq_true]
            intro f hf
            have := hno f hf
            simp only [Bool.not_eq_true] at this
            simp [this]
          rw [this] at ha'
          simp at ha'
        obtain ⟨f, hf, hcond⟩ := hex
        have htask : (⟨buildFileDownloadUrl dt date f.file_name,
            destPath dt date f.file_name, date⟩ : DlTask)
            ∈ buildDownloadsTasks dt ex filt recs :=
          bdt_mem_iff.mpr ⟨date, r, hmem, f, hf, hcond, rfl⟩
        exact pt_task_true hP htask
    rw [applyStatus_lookup, lookup_of_mem_nodup hnd hmem]
    simp [hst]

/-- Claim C9: the per-partition file listing always requests the `trades`
dataset path regardless of the configured data type, whereas the file download
URL and the partition discovery path use the configured type's name — so for
every non-trades data type the files listed and the files downloaded come from
different remote dataset paths. -/
theorem claim_C9 (dt : DataType) (date f : String) :
    fetchFilesPath dt date = fetchFilesPath DataType.Trades date ∧
    (dt ≠ DataType.Trades →
      buildFileDownloadUrl dt date f ≠ buildFileDownloadUrl DataType.Trades date f ∧
      fetchDatesPath dt ≠ fetchDatesPath DataType.Trades ∧
      dt.as_str ≠ "trades") := by
  constructor
  · rfl
  · intro hne
    have hlen : dt.as_str.length ≠ ("trades" : String).length := by
      cases dt
      · decide
      · decide
      · exact absurd rfl hne
    refine ⟨?_, ?_, ?_⟩
    · intro heq
      have hl := congrArg String.length heq
      simp only [buildFileDownloadUrl, String.length_append, DataType.as_str] at hl hlen
      omega
    · intro heq
      have hl := congrArg String.length heq
      simp only [fetchDatesPath, String.length_append, DataType.as_str] at hl hlen
      omega
    · exact fun h => hlen (congrArg String.length h)

/-- Witness for C9 at the swap-rate data type. -/
theorem claim_C9_witness :
    fetchFilesPath DataType.SwapRate "20240101" = fetchFilesPath DataType.Trades "20240101" ∧
    (buildFileDownloadUrl DataType.SwapRate "20240101" "a.zip"
      ≠ buildFileDownloadUrl DataType.Trades "20240101" "a.zip" ∧
     fetchDatesPath DataType.SwapRate ≠ fetchDatesPath DataType.Trades ∧
     DataType.as_str DataType.SwapRate ≠ "trades") :=
  ⟨(claim_C9 DataType.SwapRate "20240101" "a.zip").1,
   (claim_C9 DataType.SwapRate "20240101" "a.zip").2 (by decide)⟩

/-- Claim C7: a file whose destination path already exists generates no fetch
request — every queued task targets a path that does not exist — and a record
all of whose filtered files exist queues nothing while keeping `all_exist =
true`, i.e. it is still counted successful. -/
theorem claim_C7 (dt : DataType) (ex filt : String → Bool)
    (recs : List (String × DateRecord)) (date : String) (fs : List FileRecord) :
    (∀ t ∈ buildDownloadsTasks dt ex filt recs, ex t.save_path = false) ∧
    ((∀ f ∈ fs, filt f.file_name = true → ex (destPath dt date f.file_name) = true) →
      buildTasksForRecord dt ex filt date fs = ([], true)) := by
  refine ⟨fun t ht => bdt_ex_false ht, fun h => btfr_nil_of ?_⟩
  intro f hf
  by_cases hfilt : filt f.file_name = true
  · simp [hfilt, h f hf hfilt]
  · have : filt f.file_name = false := by simpa using hfilt
    simp [this]

/-- Witness for C7: partition 20240101's only file exists on disk, so its
record queues nothing; partition 20240102's file is missing and its queued
task targets a non-existing path. -/
theorem claim_C7_witness :
    ((fun p => p == "./data/trades/20240101/a.zip")
        (DlTask.mk "https://static.okx.com/cdn/okex/traderecords/trades/daily/20240102/b.zip"
          "./data/trades/20240102/b.zip" "20240102").save_path) = false ∧
    buildTasksForRecord DataType.Trades (fun p => p == "./data/trades/20240101/a.zip")
        (fun _ => true) "20240101" [⟨"a.zip"⟩] = ([], true) :=
  ⟨(claim_C7 DataType.Trades (fun p => p == "./data/trades/20240101/a.zip")
      (fun _ => true) [("20240102", ⟨false, [⟨"b.zip"⟩]⟩)] "20240101" [⟨"a.zip"⟩]).1
      _ (by decide),
   (claim_C7 DataType.Trades (fun p => p == "./data/trades/20240101/a.zip")
      (fun _ => true) [("20240102", ⟨false, [⟨"b.zip"⟩]⟩)] "20240101" [⟨"a.zip"⟩]).2
      (by decide)⟩

/-- Claim C10: a record whose files list is empty (the not-yet-discovered
sentinel) or all of whose files are rejected by the predicate produces zero
tasks yet keeps per-partition status `true`, so on scheduler completion it is
marked `downloaded = true` without any file having been fetched. -/
theorem claim_C10 (dt : DataType) (ex filt : String → Bool) (fetchOk : DlTask → Bool)
    (date : String) (r : DateRecord)
    (h : ∀ f ∈ r.files, filt f.file_name = false) :
    buildTasksForRecord dt ex filt date r.files = ([], true) ∧
    buildDownloadsTasks dt ex filt [(date, r)] = [] ∧
    downloadCore dt ex filt fetchOk [(date, r)] = .ok [(date, ⟨true, r.files⟩)] := by
  have h0 : buildTasksForRecord dt ex filt date r.files = ([], true) :=
    btfr_nil_of (fun f hf => by simp [h f hf])
  have h1 : buildDownloadsTasks dt ex filt [(date, r)] = [] := by
    simp [buildDownloadsTasks, h0]
  have h2 : buildDownloadsStatus dt ex filt [(date, r)] [] = [(date, true)] := by
    simp [buildDownloadsStatus, h0, upsert]
  refine ⟨h0, h1, ?_⟩
  unfold downloadCore
  rw [h1, h2]
  simp [processTasks, applyStatus, List.lookup_cons]

/-- Witness for C10 at a sentinel (empty-files) record. -/
theorem claim_C10_witness :
    buildTasksForRecord DataType.Trades (fun _ => false) (fun _ => true) "20240101"
        (DateRecord.mk false []).files = ([], true) ∧
    buildDownloadsTasks DataType.Trades (fun _ => false) (fun _ => true)
        [("20240101", DateRecord.mk false [])] = [] ∧
    downloadCore DataType.Trades (fun _ => false) (fun _ => true) (fun _ => true)
        [("20240101", DateRecord.mk false [])]
      = .ok [("20240101", ⟨true, (DateRecord.mk false []).files⟩)] :=
  claim_C10 DataType.Trades (fun _ => false) (fun _ => true) (fun _ => true)
    "20240101" (DateRecord.mk false []) (by simp)

/-- Claim C4 is false on the code: the task-building loop iterates over ALL
records and never consults the `downloaded` flag, so a record already marked
`downloaded = true` (ignore flag unset) whose filtered file is absent on disk
does contribute a task — here its fetch is even attempted (and fails, making
the pass error). -/
theorem claim_C4_cex :
    buildDownloadsTasks DataType.Trades (fun _ => false) (fun _ => true)
        [("20240101", ⟨true, [⟨"a.zip"⟩]⟩)] ≠ [] ∧
    (downloadUnfetchedFiles DataType.Trades (fun _ => false) (fun _ => true)
        (fun _ => false) (fun _ => []) false
        [("20240101", ⟨true, [⟨"a.zip"⟩]⟩)]).ok = false :=
  ⟨by decide, by decide⟩

/-- Claim C4 as amended: the download pass builds tasks for every record
regardless of its `downloaded` flag (and of the ignore flag): the queued tasks
are exactly one per filtered file absent on disk, independently of the flag;
and after a successful pass EVERY record's `downloaded` flag is rewritten from
the scheduler's per-partition result (which is then always `true`). -/
theorem claim_C4_amended (dt : DataType) (ex filt : String → Bool)
    (fetchOk : DlTask → Bool) (recs recs' : List (String × DateRecord))
    (t : DlTask) (d0 : String) (b : Bool) (fs : List FileRecord)
    (rest : List (String × DateRecord)) :
    (t ∈ buildDownloadsTasks dt ex filt recs ↔
      ∃ date r, (date, r) ∈ recs ∧ ∃ f ∈ r.files,
        (filt f.file_name && !ex (destPath dt date f.file_name)) = true ∧
        t = ⟨buildFileDownloadUrl dt date f.file_name,
             destPath dt date f.file_name, date⟩) ∧
    (buildDownloadsTasks dt ex filt ((d0, ⟨b, fs⟩) :: rest)
      = buildDownloadsTasks dt ex filt ((d0, ⟨true, fs⟩) :: rest)) ∧
    ((keysOf recs).Nodup → ∀ date r, (date, r) ∈ recs →
      downloadCore dt ex filt fetchOk recs = .ok recs' →
      recs'.lookup date = some ⟨true, r.files⟩) :=
  ⟨bdt_mem_iff, rfl, fun hnd _ _ hmem h => downloadCore_ok_flag hnd hmem h⟩

/-- Witness for the amended C4 at a concrete successful run. -/
theorem claim_C4_witness :
    (∃ date r, (date, r) ∈ [("20240101", (⟨false, [⟨"a.zip"⟩]⟩ : DateRecord))] ∧
      ∃ f ∈ r.files,
        ((fun (_ : String) => true) f.file_name
          && !(fun (_ : String) => false) (destPath DataType.Trades date f.file_name)) = true ∧
        (DlTask.mk "https://static.okx.com/cdn/okex/traderecords/trades/daily/20240101/a.zip"
            "./data/trades/20240101/a.zip" "20240101")
          = ⟨buildFileDownloadUrl DataType.Trades date f.file_name,
             destPath DataType.Trades date f.file_name, date⟩) ∧
    List.lookup "20240101" [("20240101", (⟨true, [⟨"a.zip"⟩]⟩ : DateRecord))]
      = some ⟨true, [⟨"a.zip"⟩]⟩ :=
  ⟨(claim_C4_amended DataType.Trades (fun _ => false) (fun _ => true) (fun _ => true)
      [("20240101", ⟨false, [⟨"a.zip"⟩]⟩)] [("20240101", ⟨true, [⟨"a.zip"⟩]⟩)]
      (DlTask.mk "https://static.okx.com/cdn/okex/traderecords/trades/daily/20240101/a.zip"
        "./data/trades/20240101/a.zip" "20240101") "x" false [] []).1.mp (by decide),
   (claim_C4_amended DataType.Trades (fun _ => false) (fun _ => true) (fun _ => true)
      [("20240101", ⟨false, [⟨"a.zip"⟩]⟩)] [("20240101", ⟨true, [⟨"a.zip"⟩]⟩)]
      (DlTask.mk "https://static.okx.com/cdn/okex/traderecords/trades/daily/20240101/a.zip"
        "./data/trades/20240101/a.zip" "20240101") "x" false [] []).2.2 (by decide)
      "20240101" ⟨false, [⟨"a.zip"⟩]⟩ (by decide) rfl⟩

/-- Claim C1 is false on the code: with partition 20240101 fully present on
disk and partition 20240102's download failing, `task.await??` propagates the
failure before any status is written back, so the pass returns an error and
20240101 is NOT marked `downloaded = true`. -/
theorem claim_C1_cex :
    (downloadUnfetchedFiles DataType.Trades
        (fun p => p == "./data/trades/20240101/a.zip") (fun _ => true)
        (fun _ => false) (fun _ => []) false
        [("20240101", ⟨false, [⟨"a.zip"⟩]⟩), ("20240102", ⟨false, [⟨"b.zip"⟩]⟩)]).ok
      = false ∧
    ¬ ((((downloadUnfetchedFiles DataType.Trades
        (fun p => p == "./data/trades/20240101/a.zip") (fun _ => true)
        (fun _ => false) (fun _ => []) false
        [("20240101", ⟨false, [⟨"a.zip"⟩]⟩), ("20240102", ⟨false, [⟨"b.zip"⟩]⟩)]).final.lookup
          "20240101").map DateRecord.downloaded) = some true) :=
  ⟨by decide, by decide⟩

/-- Claim C1 as amended: one failing download task makes
`download_unfetched_files` return an error, and then NO partition's
`downloaded` flag is updated — every record keeps its pre-pass flag — while
every queued task targets a file absent on disk, so a subsequent run
re-attempts only the missing files. -/
theorem claim_C1_amended (dt : DataType) (ex filt : String → Bool)
    (fetchOk : DlTask → Bool) (lister : String → List FileRecord) (ignore : Bool)
    (recs : List (String × DateRecord)) (s : String) :
    ((downloadUnfetchedFiles dt ex filt fetchOk lister ignore recs).ok = false →
      (((downloadUnfetchedFiles dt ex filt fetchOk lister ignore recs).final.lookup s).map
        DateRecord.downloaded) = ((recs.lookup s).map DateRecord.downloaded)) ∧
    (∀ t ∈ buildDownloadsTasks dt ex filt (updateFileLists lister ignore recs).1,
      ex t.save_path = false) := by
  constructor
  · intro hok
    cases hC : downloadCore dt ex filt fetchOk (updateFileLists lister ignore recs).1 with
    | error e =>
      simp only [downloadUnfetchedFiles, hC]
      exact updateFileLists_flags lister ignore recs s
    | ok recs2 =>
      simp [downloadUnfetchedFiles, hC] at hok
  · exact fun t ht => bdt_ex_false ht

/-- Witness for the amended C1 at the concrete failing run. -/
theorem claim_C1_witness :
    ((((downloadUnfetchedFiles DataType.Trades
        (fun p => p == "./data/trades/20240101/a.zip") (fun _ => true)
        (fun _ => false) (fun _ => []) false
        [("20240101", ⟨false, [⟨"a.zip"⟩]⟩), ("20240102", ⟨false, [⟨"b.zip"⟩]⟩)]).final.lookup
          "20240102").map DateRecord.downloaded)
      = ((List.lookup "20240102"
          [("20240101", (⟨false, [⟨"a.zip"⟩]⟩ : DateRecord)),
           ("20240102", (⟨false, [⟨"b.zip"⟩]⟩ : DateRecord))]).map DateRecord.downloaded)) ∧
    ((fun p => p == "./data/trades/20240101/a.zip")
      (DlTask.mk "https://static.okx.com/cdn/okex/traderecords/trades/daily/20240102/b.zip"
        "./data/trades/20240102/b.zip" "20240102").save_path) = false :=
  ⟨(claim_C1_amended DataType.Trades
      (fun p => p == "./data/trades/20240101/a.zip") (fun _ => true)
      (fun _ => false) (fun _ => []) false
      [("20240101", ⟨false, [⟨"a.zip"⟩]⟩), ("20240102", ⟨false, [⟨"b.zip"⟩]⟩)]
      "20240102").1 (by decide),
   (claim_C1_amended DataType.Trades
      (fun p => p == "./data/trades/20240101/a.zip") (fun _ => true)
      (fun _ => false) (fun _ => []) false
      [("20240101", ⟨false, [⟨"a.zip"⟩]⟩), ("20240102", ⟨false, [⟨"b.zip"⟩]⟩)]
      "20240102").2 _ (by decide)⟩

/-- Claim C2 is false on the code: a download pass that completes `Ok` leaves
the persisted snapshot with the OLD `downloaded` flag while the in-memory
catalog has the new one — the flag update made after the scheduler finishes is
never saved by `download_unfetched_files`. -/
theorem claim_C2_cex :
    (downloadUnfetchedFiles DataType.Trades (fun _ => true) (fun _ => true)
        (fun _ => true) (fun _ => []) false
        [("20240101", ⟨false, [⟨"a.zip"⟩]⟩)]).ok = true ∧
    (((downloadUnfetchedFiles DataType.Trades (fun _ => true) (fun _ => true)
        (fun _ => true) (fun _ => []) false
        [("20240101", ⟨false, [⟨"a.zip"⟩]⟩)]).final.lookup "20240101").map
          DateRecord.downloaded = some true) ∧
    (((downloadUnfetchedFiles DataType.Trades (fun _ => true) (fun _ => true)
        (fun _ => true) (fun _ => []) false
        [("20240101", ⟨false, [⟨"a.zip"⟩]⟩)]).persisted.lookup "20240101").map
          DateRecord.downloaded = some false) :=
  ⟨by decide, by decide, by decide⟩

/-- Claim C2 as amended: the only persistence during the download pass is the
save inside `update_file_lists`, performed before any download runs — the
persisted snapshot always carries the pre-pass `downloaded` flags; the flag
updates from the scheduler's results are applied only in memory. -/
theorem claim_C2_amended (dt : DataType) (ex filt : String → Bool)
    (fetchOk : DlTask → Bool) (lister : String → List FileRecord) (ignore : Bool)
    (recs : List (String × DateRecord)) (s : String) :
    (((downloadUnfetchedFiles dt ex filt fetchOk lister ignore recs).persisted.lookup s).map
      DateRecord.downloaded) = ((recs.lookup s).map DateRecord.downloaded) := by
  cases hC : downloadCore dt ex filt fetchOk (updateFileLists lister ignore recs).1 with
  | error e =>
    simp only [downloadUnfetchedFiles, hC]
    exact updateFileLists_flags lister ignore recs s
  | ok recs2 =>
    simp only [downloadUnfetchedFiles, hC]
    exact updateFileLists_flags lister ignore recs s
